import Mathlib

/-!
Formal model of the hybrid-retrieval and reflective-answering core of the
IRRA study-assistant repository (src/src/retriever.py, src/src/vectorstore.py,
src/src/agent.py, src/src/citations.py, src/config.py).

Modelling conventions:
* Python floats are modelled as exact rationals (`ℚ`).
* Python dicts are modelled as insertion-ordered association lists, so that
  `dict.keys()` iteration order (= first-insertion order) is preserved.
* Python's stable `sorted(..., reverse=True)` is modelled by
  `List.insertionSort` with the reversed comparison, which is a stable sort.
* External providers (the ChromaDB similarity search, the LLM, the
  cross-encoder, `json.loads`, `math.log`) are parameters of the model; a
  Python call that may raise is modelled with `Except`/`Option`.
-/

namespace IRRA

/-- Model of a LangChain `Document`: a retrievable chunk of text plus its
metadata (metadata values rendered as strings). -/
structure Document where
  page_content : String
  metadata : List (String × String)
  deriving DecidableEq, Repr, Inhabited

/-- config.py: `TOP_K_RETRIEVAL = 10`. -/
def cTOP_K_RETRIEVAL : ℕ := 10

/-- config.py: `TOP_K_RERANK = 5`. -/
def cTOP_K_RERANK : ℕ := 5

/-- config.py: `MAX_REFLECTION_ITERATIONS = 2`. -/
def cMAX_REFLECTION_ITERATIONS : ℕ := 2

/-- config.py: `CONFIDENCE_THRESHOLD = 0.6`. -/
def cCONFIDENCE_THRESHOLD : ℚ := 3/5

/-- Lookup in an insertion-ordered association list (a Python dict access
`m.get(k)` / `m[k]`). -/
def alistGet {α : Type} (m : List (String × α)) (k : String) : Option α :=
  (m.find? (fun p => p.1 == k)).map Prod.snd

/-- In-place update `m[k] += v` of a Python dict (the key is assumed present;
absent keys are left untouched, matching the source which always inserts the
key first). -/
def alistAdd (m : List (String × ℚ)) (k : String) (v : ℚ) : List (String × ℚ) :=
  m.map (fun p => if p.1 == k then (p.1, p.2 + v) else p)

/-! ### retriever.py — Reciprocal Rank Fusion (lines 84-115) -/

/-- Python `s[:n]` on a string: the first `n` characters (implemented over
the character list so that it evaluates by kernel reduction). -/
def strTake (s : String) (n : ℕ) : String :=
  String.mk (s.toList.take n)

/-- retriever.py line 106: `key = doc.page_content[:200]`. -/
def rrfKey (d : Document) : String :=
  strTake d.page_content 200

/-- State of the two dicts `doc_scores` / `doc_map` built by
`reciprocal_rank_fusion`. -/
structure RRFState where
  doc_scores : List (String × ℚ)
  doc_map : List (String × Document)
  deriving DecidableEq, Repr

/-- Loop body of `reciprocal_rank_fusion` for one `(rank, doc)` pair:
insert the key with score 0 and representative `doc` if unseen, then add
`1.0 / (k + rank + 1)` to its score. -/
def rrfStep (kc : ℕ) (rank : ℕ) (st : RRFState) (d : Document) : RRFState :=
  let key := rrfKey d
  let st1 : RRFState :=
    if (alistGet st.doc_map key).isSome then st
    else ⟨st.doc_scores ++ [(key, 0)], st.doc_map ++ [(key, d)]⟩
  ⟨alistAdd st1.doc_scores key (1 / ((kc : ℚ) + (rank : ℚ) + 1)), st1.doc_map⟩

/-- Inner loop `for rank, doc in enumerate(result_list)`, starting at a given
rank. -/
def rrfList (kc : ℕ) : ℕ → RRFState → List Document → RRFState
  | _, st, [] => st
  | rank, st, d :: ds => rrfList kc (rank + 1) (rrfStep kc rank st d) ds

/-- Outer loop `for result_list in results_lists` of
`reciprocal_rank_fusion`. -/
def rrfFold (kc : ℕ) (results_lists : List (List Document)) : RRFState :=
  results_lists.foldl (fun st l => rrfList kc 0 st l) ⟨[], []⟩

/-- Score lookup `doc_scores[x]` (0 for an absent key, which cannot occur for
keys of the dict). -/
def rrfScore (st : RRFState) (key : String) : ℚ :=
  (alistGet st.doc_scores key).getD 0

/-- retriever.py lines 84-115, `reciprocal_rank_fusion(results_lists, k)`:
accumulate RRF scores keyed by the first 200 characters of `page_content`,
then return the first-seen representative documents sorted by descending
score (Python's `sorted` is stable, modelled by `insertionSort`). -/
def reciprocal_rank_fusion (results_lists : List (List Document)) (kc : ℕ) :
    List Document :=
  let st := rrfFold kc results_lists
  let sorted_keys :=
    List.insertionSort (fun a b => rrfScore st b ≤ rrfScore st a)
      (st.doc_scores.map Prod.fst)
  sorted_keys.filterMap (alistGet st.doc_map)

/-! ### retriever.py — BM25 index (lines 26-63) and rank_bm25.BM25Okapi

`math.log` is a parameter `log : ℚ → ℚ` of the model (the real logarithm is
not rational-valued); concrete theorems instantiate it with a strictly
monotone stand-in, which is the only property of `log` the scenarios use. -/

/-- Word splitter over a character list (current word accumulated in
reverse), modelling Python `str.split()` with spaces as separators. -/
def splitWordsAux : List Char → List Char → List String
  | [], [] => []
  | [], acc => [String.mk acc.reverse]
  | c :: cs, acc =>
    if c = ' ' then
      if acc.isEmpty then splitWordsAux cs []
      else String.mk acc.reverse :: splitWordsAux cs []
    else splitWordsAux cs (c :: acc)

/-- Python `text.lower().split()` (whitespace tokenization, case-folded;
empty tokens dropped). -/
def tokenize (s : String) : List String :=
  splitWordsAux (s.toList.map Char.toLower) []

/-- Increment a term count in an insertion-ordered frequency dict. -/
def bumpFreq (m : List (String × ℕ)) (w : String) : List (String × ℕ) :=
  if (alistGet m w).isSome then
    m.map (fun p => if p.1 == w then (p.1, p.2 + 1) else p)
  else m ++ [(w, 1)]

/-- Per-document term frequencies (rank_bm25 `_initialize`). -/
def termFreqs (doc : List String) : List (String × ℕ) :=
  doc.foldl bumpFreq []

/-- Number of documents containing each word (rank_bm25 `nd`). -/
def ndOf (doc_freqs : List (List (String × ℕ))) : List (String × ℕ) :=
  doc_freqs.foldl (fun nd f => f.foldl (fun nd p => bumpFreq nd p.1) nd) []

/-- rank_bm25 `BM25Okapi` default `k1 = 1.5`. -/
def bm25_k1 : ℚ := 3/2

/-- rank_bm25 `BM25Okapi` default `b = 0.75`. -/
def bm25_b : ℚ := 3/4

/-- rank_bm25 `BM25Okapi` default `epsilon = 0.25`. -/
def bm25_epsilon : ℚ := 1/4

/-- rank_bm25 `BM25Okapi._calc_idf`: raw idf
`log(corpus_size - freq + 0.5) - log(freq + 0.5)`, with negative idfs floored
to `epsilon * average_idf`. -/
def calcIdf (log : ℚ → ℚ) (corpus_size : ℕ) (nd : List (String × ℕ)) :
    List (String × ℚ) :=
  let raw := nd.map (fun p =>
    (p.1, log ((corpus_size : ℚ) - (p.2 : ℚ) + 1/2) - log ((p.2 : ℚ) + 1/2)))
  let idf_sum := (raw.map Prod.snd).sum
  let average_idf := idf_sum / (raw.length : ℚ)
  let eps := bm25_epsilon * average_idf
  raw.map (fun p => if p.2 < 0 then (p.1, eps) else p)

/-- Model of a constructed `rank_bm25.BM25Okapi` object. -/
structure BM25Okapi where
  corpus_size : ℕ
  avgdl : ℚ
  doc_freqs : List (List (String × ℕ))
  doc_len : List ℕ
  idf : List (String × ℚ)
  deriving DecidableEq, Repr

/-- rank_bm25 `BM25Okapi.__init__` on a tokenized corpus. -/
def mkBM25Okapi (log : ℚ → ℚ) (corpus : List (List String)) : BM25Okapi :=
  let doc_len := corpus.map List.length
  let doc_freqs := corpus.map termFreqs
  let corpus_size := corpus.length
  { corpus_size := corpus_size
    avgdl := ((doc_len.sum : ℕ) : ℚ) / (corpus_size : ℚ)
    doc_freqs := doc_freqs
    doc_len := doc_len
    idf := calcIdf log corpus_size (ndOf doc_freqs) }

/-- Query-term frequency of `w` in one document's frequency dict. -/
def qFreq (f : List (String × ℕ)) (w : String) : ℕ :=
  (alistGet f w).getD 0

/-- `self.idf.get(q) or 0`. -/
def idfOf (bm : BM25Okapi) (w : String) : ℚ :=
  (alistGet bm.idf w).getD 0

/-- rank_bm25 `BM25Okapi.get_scores`: the BM25 score of every corpus document
for the query terms. -/
def get_scores (bm : BM25Okapi) (query : List String) : List ℚ :=
  (List.range bm.corpus_size).map (fun i =>
    let dl := ((bm.doc_len.getD i 0 : ℕ) : ℚ)
    let f := bm.doc_freqs.getD i []
    (query.map (fun w =>
      let qf := ((qFreq f w : ℕ) : ℚ)
      idfOf bm w *
        (qf * (bm25_k1 + 1) /
          (qf + bm25_k1 * (1 - bm25_b + bm25_b * dl / bm.avgdl))))).sum)

/-- retriever.py lines 26-31: the `BM25Index` object (`documents` plus the
optional built `bm25` statistics). -/
structure BM25Index where
  documents : List Document
  bm25 : Option BM25Okapi
  deriving DecidableEq, Repr

namespace BM25Index

/-- retriever.py lines 33-50, `BM25Index.build_from_vectorstore`: the corpus
read from the vector store replaces the index state, but ONLY inside the guard
`if results and results.get("documents"):` — with an empty corpus the whole
body is skipped and the previous state survives untouched. -/
def build_from_vectorstore (log : ℚ → ℚ) (st : BM25Index)
    (corpus : List Document) : BM25Index :=
  if corpus.isEmpty then st
  else
    { documents := corpus
      bm25 := some (mkBM25Okapi log (corpus.map (fun d => tokenize d.page_content))) }

/-- retriever.py lines 52-63, `BM25Index.search`: return the top-k documents
by BM25 score, excluding non-positive scores; `[]` when unbuilt or empty. -/
def search (st : BM25Index) (query : String) (k : ℕ) : List Document :=
  match st.bm25 with
  | none => []
  | some bm =>
    if st.documents.isEmpty then []
    else
      let tq := tokenize query
      let scores := get_scores bm tq
      let top :=
        (List.insertionSort (fun i j => scores.getD j 0 ≤ scores.getD i 0)
          (List.range scores.length)).take k
      (top.filter (fun i => decide (0 < scores.getD i 0))).filterMap
        (fun i => st.documents[i]?)

end BM25Index

/-! ### vectorstore.py — `similarity_search` (lines 119-151)

The underlying LangChain/ChromaDB search (including the embedding call) is the
parameter `provider`; `Except.error` models a raised exception.  The source
has no try/except around the provider call. -/

/-- vectorstore.py lines 119-151, `similarity_search(query, k, filters)`:
resolve the default `k`, build the `where` filter when `filters` is truthy
(a non-empty dict), and call the provider.  Provider exceptions propagate. -/
def similarity_search
    (provider : String → ℕ → Option (List (String × String)) →
      Except String (List Document))
    (query : String) (k : Option ℕ) (filters : Option (List (String × String))) :
    Except String (List Document) :=
  let kk := k.getD cTOP_K_RETRIEVAL
  match filters with
  | some fs => if fs.isEmpty then provider query kk none else provider query kk (some fs)
  | none => provider query kk none

/-! ### retriever.py — `rerank_documents` (lines 120-151)

The cross-encoder is the parameter `encoder`; `none` models both an
unavailable model (import/constructor failure) and `predict` raising — all of
which land in the `except` branch of the source. -/

/-- retriever.py lines 120-151, `rerank_documents(query, documents, top_k)`:
score (query, content) pairs with the cross-encoder and sort descending
(stable), truncating to `top_k`; on any failure fall back to the first
`top_k` documents in their original order. -/
def rerank_documents (encoder : Option (String → String → ℚ))
    (query : String) (documents : List Document) (top_k : Option ℕ) :
    List Document :=
  let tk := top_k.getD cTOP_K_RERANK
  if documents.isEmpty then []
  else
    match encoder with
    | some model =>
      let scored := documents.map (fun d => (d, model query d.page_content))
      ((List.insertionSort (fun p q : Document × ℚ => q.2 ≤ p.2) scored).take tk).map
        Prod.fst
    | none => documents.take tk

/-! ### retriever.py — `generate_sub_queries` (lines 156-185)

The LLM call is the parameter `llm` (`Except.error` = the provider raised —
the source does NOT guard `llm.invoke` with try/except); `json.loads` is the
parameter `jsonLoads` (`none` = `JSONDecodeError`;
`PyJson.nonArr` = parsed JSON that is not a list). -/

/-- Result of `json.loads` as far as the source inspects it: a JSON array (of
sub-query strings) or anything else. -/
inductive PyJson where
  | arr (xs : List String)
  | nonArr
  deriving DecidableEq, Repr

/-- The multi-hop decomposition prompt built from the query. -/
def subQueryPrompt (query : String) : String :=
  "Given the following complex question, generate 2-3 simpler sub-questions\nthat would help gather all the context needed to answer it comprehensively.\n\nOriginal question: " ++
    query ++
    "\n\nRespond with ONLY a JSON array of strings, e.g.:\n[\"sub-question 1\", \"sub-question 2\", \"sub-question 3\"]"

/-- retriever.py lines 156-185, `generate_sub_queries(query)`: invoke the LLM
(exceptions propagate), then return the parsed JSON list as-is, or `[query]`
when the output fails to parse as a list. -/
def generate_sub_queries (llm : String → Except String String)
    (jsonLoads : String → Option PyJson) (query : String) :
    Except String (List String) :=
  match llm (subQueryPrompt query) with
  | Except.error e => Except.error e
  | Except.ok content =>
    match jsonLoads content with
    | some (PyJson.arr xs) => Except.ok xs
    | _ => Except.ok [query]

/-! ### citations.py — `format_citation` / `format_citations_block` -/

/-- Python `metadata.get(key, default)` over the string-rendered metadata. -/
def metaGet (m : List (String × String)) (k : String) (dflt : String) : String :=
  (alistGet m k).getD dflt

/-- citations.py lines 13-31, `format_citation(metadata)`. -/
def format_citation (metadata : List (String × String)) : String :=
  let source_file := metaGet metadata "source_file" "Unknown Document"
  let page_number := metaGet metadata "page_number" "?"
  let sect := metaGet metadata "section_heading" ""
  let c := "📄 " ++ source_file ++ ", Page " ++ page_number
  if sect != "" then c ++ " — " ++ sect else c

/-- Accumulating loop of `format_citations_block`: dedup by
`(source_file, page_number)` keeping first occurrences. -/
def citationsAcc : List Document → List (String × String) → List String →
    List String
  | [], _, cits => cits
  | d :: ds, seen, cits =>
    let key := (metaGet d.metadata "source_file" "",
      metaGet d.metadata "page_number" "0")
    if seen.contains key then citationsAcc ds seen cits
    else citationsAcc ds (key :: seen) (cits ++ [format_citation d.metadata])

/-- citations.py lines 34-60, `format_citations_block(documents)`. -/
def format_citations_block (documents : List Document) : String :=
  let cits := citationsAcc documents [] []
  if cits.isEmpty then ""
  else
    "\n\n---\n📚 **Sources Used:**\n" ++
      String.join (cits.map (fun c => "- " ++ c ++ "\n"))

/-! ### agent.py — the reflective answering loop `rag_answer` (lines 131-237)

External effects are collected in `AgentEnv`:
`retrieve` is `hybrid_retrieve` on the current query, `llm` is
`llm.invoke(...).content` on the generation prompt, `formatPrompt` is
`system_prompt_template.format(context=..., history=..., question=...)`, and
`reflect` is `reflect_on_answer(query, answer, chunks)` with its `.get`
defaults still unapplied (hence `Option` fields).  The loop is instrumented
with a trace recording, per completed retrieval+generation cycle, the query
used for retrieval, the chunks retrieved, the `question` argument handed to
the generation prompt, the generated answer, and the reflection verdict
(`none` on the final, unreflected iteration).  The `RagResult` fields are
computed exactly as in the source. -/

/-- The dict returned by `reflect_on_answer`, before the `.get` defaults of
agent.py lines 204 and 217 are applied. -/
structure Reflection where
  overall_confidence : Option ℚ
  should_retry : Option Bool
  retry_suggestion : Option String
  deriving DecidableEq, Repr

/-- agent.py line 204: `reflection.get("overall_confidence", 0.5)`. -/
def confOf (r : Reflection) : ℚ :=
  r.overall_confidence.getD (1/2)

/-- agent.py line 217: `reflection.get("should_retry") and
reflection.get("retry_suggestion")` (Python truthiness: a non-empty string). -/
def retryCond (r : Reflection) : Bool :=
  r.should_retry.getD false && (r.retry_suggestion.getD "" != "")

/-- agent.py lines 217-218: the query used for the next retrieval. -/
def nextQuery (r : Reflection) (cq : String) : String :=
  if retryCond r then r.retry_suggestion.getD "" else cq

/-- The dict returned by `rag_answer`. -/
structure RagResult where
  answer : String
  citations : String
  confidence : ℚ
  chunks_used : ℕ
  iterations : ℕ
  deriving DecidableEq, Repr

/-- One completed retrieval+generation cycle of the loop (trace record). -/
structure CycleLog where
  retrieval_query : String
  chunks : List Document
  gen_question : String
  answer : String
  reflected : Option Reflection
  deriving DecidableEq, Repr

/-- The external collaborators of `rag_answer`. -/
structure AgentEnv where
  retrieve : String → List Document
  llm : String → String
  formatPrompt : String → String → String → String
  reflect : String → String → List Document → Reflection
  history : String

/-- agent.py line 182: the fixed no-context answer. -/
def noInfoAnswer : String :=
  "I couldn't find relevant information in the uploaded course materials. Please check if the relevant notes have been uploaded."

/-- agent.py lines 170-229: the body of
`for iteration in range(MAX_REFLECTION_ITERATIONS + 1)`, as a recursion on
the remaining fuel (initially `maxIter + 1`), carrying
`iteration, current_query, best_answer, best_confidence, best_chunks` and the
instrumentation trace. -/
def ragLoop (env : AgentEnv) (maxIter : ℕ) (threshold : ℚ) (query : String) :
    ℕ → ℕ → String → String → ℚ → List Document → List CycleLog →
    RagResult × List CycleLog
  | 0, iteration, _, ba, bc, bch, tr =>
    ({ answer := ba, citations := format_citations_block bch, confidence := bc,
       chunks_used := bch.length, iterations := iteration }, tr)
  | fuel + 1, iteration, cq, ba, bc, bch, tr =>
    let chunks := env.retrieve cq
    if chunks.isEmpty then
      ({ answer := noInfoAnswer, citations := "", confidence := 0,
         chunks_used := 0, iterations := iteration + 1 }, tr)
    else
      let context := String.intercalate "\n\n---\n\n" (chunks.map Document.page_content)
      let answer := env.llm (env.formatPrompt context env.history query)
      if iteration < maxIter then
        let r := env.reflect query answer chunks
        let conf := confOf r
        let e : CycleLog := ⟨cq, chunks, query, answer, some r⟩
        if threshold ≤ conf then
          ({ answer := answer, citations := format_citations_block chunks,
             confidence := conf, chunks_used := chunks.length,
             iterations := iteration + 1 }, tr ++ [e])
        else
          ragLoop env maxIter threshold query fuel (iteration + 1) (nextQuery r cq)
            (if bc < conf then answer else ba) (if bc < conf then conf else bc)
            (if bc < conf then chunks else bch) (tr ++ [e])
      else
        ragLoop env maxIter threshold query fuel (iteration + 1) cq answer bc chunks
          (tr ++ [⟨cq, chunks, query, answer, none⟩])

/-- agent.py lines 131-237, `rag_answer(query)` (with the configured
iteration budget and confidence threshold as explicit parameters), returning
the result dict together with the instrumentation trace. -/
def rag_answer (env : AgentEnv) (maxIter : ℕ) (threshold : ℚ) (query : String) :
    RagResult × List CycleLog :=
  ragLoop env maxIter threshold query (maxIter + 1) 0 query "" 0 [] []

/-- Confidences of the reflected (non-final) cycles of a trace, in order. -/
def reflConfs (tr : List CycleLog) : List ℚ :=
  tr.filterMap (fun e => e.reflected.map confOf)

/-! ### Specification-side definitions (used only in theorem statements) -/

/-- Fusion score as the specification words it: one term
`1 / (k_constant + rank + 1)` per input list in which the key's chunk
appears, `rank` being its zero-based position there. -/
def specScore (results_lists : List (List Document)) (kc : ℕ) (key : String) : ℚ :=
  (results_lists.map (fun l =>
    match l.findIdx? (fun d => rrfKey d == key) with
    | some r => (1 : ℚ) / ((kc : ℚ) + (r : ℚ) + 1)
    | none => 0)).sum

/-- Sum of the per-occurrence contributions of a key inside one list,
starting from a given rank (matches the accumulation the code performs). -/
def rankSum (kc : ℕ) (key : String) : ℕ → List Document → ℚ
  | _, [] => 0
  | r, d :: ds =>
    (if rrfKey d == key then (1 : ℚ) / ((kc : ℚ) + (r : ℚ) + 1) else 0) +
      rankSum kc key (r + 1) ds

/-- Keep-first insertion: append `x` unless it is already present. -/
def fsInsert (acc : List String) (x : String) : List String :=
  if x ∈ acc then acc else acc ++ [x]

/-- First-seen deduplication (helper accumulating an already-kept prefix). -/
def fsDedupAux : List String → List String → List String
  | acc, [] => acc
  | acc, x :: xs => fsDedupAux (fsInsert acc x) xs

/-- First-seen deduplication of a list: keeps the first occurrence of every
element, in order of first appearance. -/
def fsDedup (l : List String) : List String :=
  fsDedupAux [] l

/-! ### Concrete fixtures for counterexamples and witnesses -/

/-- A dense-search provider whose every call fails (the vector store or the
embedding endpoint is unavailable). -/
def failingProvider :
    String → ℕ → Option (List (String × String)) → Except String (List Document) :=
  fun _ _ _ => Except.error "provider unavailable"

/-- An LLM stub returning the parseable JSON text `[]`. -/
def llmEmptyArr : String → Except String String :=
  fun _ => Except.ok "[]"

/-- An LLM stub whose call raises. -/
def llmRaises : String → Except String String :=
  fun _ => Except.error "ResourceExhausted"

/-- A `json.loads` stub: parses `[]` to the empty JSON array and fails on
everything else. -/
def jsonLoads0 : String → Option PyJson :=
  fun s => if s = "[]" then some (PyJson.arr []) else none

/-- Two chunks with identical content but different source metadata. -/
def dSameA : Document := ⟨"same text", [("source_file", "a.pdf")]⟩

/-- Second chunk with the same leading text as `dSameA`. -/
def dSameB : Document := ⟨"same text", [("source_file", "b.pdf")]⟩

/-- A strictly monotone rational stand-in for `math.log`; the BM25 scenario
below only uses `log` through order comparisons of its values. -/
def log0 : ℚ → ℚ := fun x => x - 1

/-- Corpus document containing the unique term "hello". -/
def bmDocHello : Document := ⟨"hello", []⟩

/-- Corpus document containing the unique term "foo". -/
def bmDocFoo : Document := ⟨"foo", []⟩

/-- Corpus document containing the unique term "bar". -/
def bmDocBar : Document := ⟨"bar", []⟩

/-- A prior BM25 index state: built from a three-document corpus. -/
def bmPrior : BM25Index :=
  BM25Index.build_from_vectorstore log0 ⟨[], none⟩ [bmDocHello, bmDocFoo, bmDocBar]

/-- A retrieval chunk used by the agent stubs. -/
def cDoc : Document := ⟨"ctx", []⟩

/-- Reflector stub of the C3 scenario: always confidence 0.1, retry
requested, retry query "revised". -/
def stubReflect : String → String → List Document → Reflection :=
  fun _ _ _ => ⟨some (1/10), some true, some "revised"⟩

/-- Reflector stub returning a non-empty retry query but `should_retry`
false. -/
def stubReflectNoRetry : String → String → List Document → Reflection :=
  fun _ _ _ => ⟨some (1/10), some false, some "revised"⟩

/-- Agent environment for the C3 scenario. -/
def envC3 : AgentEnv :=
  ⟨fun _ => [cDoc], fun _ => "ans", fun a b c => a ++ "|" ++ b ++ "|" ++ c,
    stubReflect, ""⟩

/-- Agent environment whose reflector never sets `should_retry`. -/
def envC8 : AgentEnv :=
  ⟨fun _ => [cDoc], fun _ => "ans", fun a b c => a ++ "|" ++ b ++ "|" ++ c,
    stubReflectNoRetry, ""⟩

/-! ## Theorems -/

unseal Rat.mul Rat.inv Rat.add Rat.sub

/-- Claim C6 (code bug in the source): rebuilding the keyword index from an
empty corpus is NOT a full replacement — the guard
`if results and results.get("documents"):` skips the whole rebuild, the prior
state survives, and `search` still returns the stale document (here with a
strictly monotone stand-in for `math.log`, which the scenario only uses
through order comparisons). The claim (and spec §4.1/§8) say `search` after
`build([])` returns `[]` for every query. -/
theorem bm25_rebuild_empty_keeps_stale_state :
    BM25Index.build_from_vectorstore log0 bmPrior [] = bmPrior ∧
      bmPrior.documents ≠ [] ∧
      (BM25Index.build_from_vectorstore log0 bmPrior []).search "hello" 10 =
        [bmDocHello] ∧
      (BM25Index.build_from_vectorstore log0 bmPrior []).search "hello" 10 ≠ [] ∧
      StrictMono log0 := by
  refine ⟨rfl, by decide, by decide, by decide, ?_⟩
  intro a b h
  simpa [log0] using sub_lt_sub_right h 1

/-- Claim C3 as stated is false: with the configured
`MAX_REFLECTION_ITERATIONS = 2` and a reflector stub always returning
confidence 0.1 with retry query "revised", the loop performs 3 (not 2)
retrieval+generation cycles — the source iterates
`range(MAX_REFLECTION_ITERATIONS + 1)`. -/
theorem rag_answer_iteration_count_counterexample :
    ((rag_answer envC3 cMAX_REFLECTION_ITERATIONS cCONFIDENCE_THRESHOLD
          "orig").2).length = 3 ∧
      (rag_answer envC3 cMAX_REFLECTION_ITERATIONS cCONFIDENCE_THRESHOLD
          "orig").1.iterations = 3 ∧
      (3 : ℕ) ≠ 2 := by
  refine ⟨by decide, by decide, by decide⟩

/-- Claim C8 as stated is false: in the first (non-final) iteration the
verdict has confidence 0.1 (below the 0.6 threshold) and a non-empty
`retry_query` "revised", yet because `should_retry` is false the second cycle
retrieves with the unchanged query "orig" — the source requires
`reflection.get("should_retry")` to be truthy as well. -/
theorem rag_answer_retry_query_counterexample :
    ((rag_answer envC8 cMAX_REFLECTION_ITERATIONS cCONFIDENCE_THRESHOLD
          "orig").2).map CycleLog.retrieval_query = ["orig", "orig", "orig"] ∧
      ((rag_answer envC8 cMAX_REFLECTION_ITERATIONS cCONFIDENCE_THRESHOLD
          "orig").2).map CycleLog.reflected =
        [some ⟨some (1/10), some false, some "revised"⟩,
          some ⟨some (1/10), some false, some "revised"⟩, none] ∧
      (1/10 : ℚ) < cCONFIDENCE_THRESHOLD ∧
      (some "revised").getD "" ≠ "" ∧
      "orig" ≠ "revised" := by
  refine ⟨by decide, by decide, by decide, by decide, by decide⟩

/-- Claim C3 amended: with the configured `MAX_REFLECTION_ITERATIONS = 2`
and a reflector stub that always returns confidence 0.1, `should_retry` and
`retry_query = "revised"`, the reflective loop performs exactly 3
retrieval+generation cycles (`MAX_REFLECTION_ITERATIONS + 1`); the second and
third cycles retrieve using the query "revised"; the final cycle is not
reflected on, and its answer is the one returned. -/
theorem rag_answer_budget_scenario (retrieve : String → List Document)
    (llm : String → String) (fp : String → String → String → String)
    (hist : String) (query : String) (hr : ∀ q, retrieve q ≠ []) :
    ((rag_answer ⟨retrieve, llm, fp, stubReflect, hist⟩ cMAX_REFLECTION_ITERATIONS
          cCONFIDENCE_THRESHOLD query).2).map CycleLog.retrieval_query =
        [query, "revised", "revised"] ∧
      ((rag_answer ⟨retrieve, llm, fp, stubReflect, hist⟩ cMAX_REFLECTION_ITERATIONS
          cCONFIDENCE_THRESHOLD query).2).map (fun e => e.reflected.isSome) =
        [true, true, false] ∧
      ((rag_answer ⟨retrieve, llm, fp, stubReflect, hist⟩ cMAX_REFLECTION_ITERATIONS
          cCONFIDENCE_THRESHOLD query).2).getLast?.map CycleLog.answer =
        some ((rag_answer ⟨retrieve, llm, fp, stubReflect, hist⟩
          cMAX_REFLECTION_ITERATIONS cCONFIDENCE_THRESHOLD query).1.answer) := by
  have h1 : ∀ q, (retrieve q).isEmpty = false := by
    intro q
    rw [List.isEmpty_eq_false]
    exact hr q
  have h2 : ¬ ((3:ℚ)/5 ≤ 10⁻¹) := by norm_num
  have h3 : (0:ℚ) < 10⁻¹ := by norm_num
  have h4 : ¬ ((10:ℚ)⁻¹ < 10⁻¹) := by norm_num
  simp [rag_answer, cMAX_REFLECTION_ITERATIONS, cCONFIDENCE_THRESHOLD, ragLoop,
    h1, stubReflect, confOf, retryCond, nextQuery, h2, h3, h4]

/-- Witness for the amended C3 theorem at concrete stubs. -/
theorem rag_answer_budget_scenario_witness :
    ((rag_answer envC3 cMAX_REFLECTION_ITERATIONS cCONFIDENCE_THRESHOLD
          "orig").2).map CycleLog.retrieval_query = ["orig", "revised", "revised"] :=
  (rag_answer_budget_scenario (fun _ => [cDoc]) (fun _ => "ans")
    (fun a b c => a ++ "|" ++ b ++ "|" ++ c) "" "orig" (fun q => by simp)).1

/-- Claim C4 as stated is false: when the underlying provider is unavailable
(every call errors), `similarity_search` does NOT return an empty list — the
error propagates to the caller, so adapter failure is not observed as "no
matches". -/
theorem similarity_search_never_throws_counterexample :
    similarity_search failingProvider "q" none none =
        Except.error "provider unavailable" ∧
      similarity_search failingProvider "q" none none ≠ Except.ok [] := by
  constructor
  · rfl
  · simp [similarity_search, failingProvider]

/-- Claim C4 amended: for every query, `k` and filter mapping, when the
underlying provider is unavailable or fails (every call raises error `e`),
`similarity_search` propagates that error instead of returning an empty
list; callers observe adapter failure as a raised exception, not as a query
with no matches. -/
theorem similarity_search_propagates_provider_error
    (provider : String → ℕ → Option (List (String × String)) →
      Except String (List Document))
    (query : String) (k : Option ℕ) (filters : Option (List (String × String)))
    (e : String) (h : ∀ q n f, provider q n f = Except.error e) :
    similarity_search provider query k filters = Except.error e ∧
      similarity_search provider query k filters ≠ Except.ok [] := by
  have hmain : similarity_search provider query k filters = Except.error e := by
    unfold similarity_search
    cases filters with
    | none => exact h ..
    | some fs =>
      by_cases hfs : fs.isEmpty <;> simp [hfs, h]
  exact ⟨hmain, by simp [hmain]⟩

/-- Witness for the amended C4 theorem at a concrete provider, query, `k`
and filter. -/
theorem similarity_search_propagates_provider_error_witness :
    similarity_search failingProvider "q" (some 3) (some [("week", "3")]) =
        Except.error "provider unavailable" ∧
      similarity_search failingProvider "q" (some 3) (some [("week", "3")]) ≠
        Except.ok [] :=
  similarity_search_propagates_provider_error failingProvider "q" (some 3)
    (some [("week", "3")]) "provider unavailable" (fun _ _ _ => rfl)

/-- Claim C5: for every query, input chunk list and `top_k`, when the
relevance model is unavailable or raises on every call (the `except` branch
of the source, modelled by `encoder = none`), `rerank_documents` returns
exactly the first `top_k` input chunks in their original, unchanged order
(with `top_k = none` resolving to the configured `TOP_K_RERANK`). -/
theorem rerank_documents_fallback (query : String) (documents : List Document)
    (top_k : Option ℕ) :
    rerank_documents none query documents top_k =
      documents.take (top_k.getD cTOP_K_RERANK) := by
  unfold rerank_documents
  cases documents <;> simp

/-- Claim C7 as stated is false on two counts, each at a concrete input:
an LLM output that parses as the empty JSON array `[]` makes
`generate_sub_queries` return the EMPTY list (not a non-empty one), and a
raising provider makes the call raise (not fall back to `[query]`). -/
theorem generate_sub_queries_counterexample :
    generate_sub_queries llmEmptyArr jsonLoads0 "q" = Except.ok [] ∧
      (Except.ok ([] : List String) : Except String (List String)) ≠
        Except.ok ["q"] ∧
      generate_sub_queries llmRaises jsonLoads0 "q" =
        Except.error "ResourceExhausted" ∧
      (Except.error "ResourceExhausted" : Except String (List String)) ≠
        Except.ok ["q"] := by
  refine ⟨rfl, by simp, rfl, by simp⟩

/-- Claim C7 amended: `generate_sub_queries` returns whatever list the
provider output parses to (even an empty one); it falls back to the
single-element list `[query]` exactly when the provider call succeeds but its
output does not parse as a JSON list; and a provider failure propagates as an
exception instead of triggering the fallback. -/
theorem generate_sub_queries_amended (llm : String → Except String String)
    (jsonLoads : String → Option PyJson) (query : String) :
    (∀ e, llm (subQueryPrompt query) = Except.error e →
        generate_sub_queries llm jsonLoads query = Except.error e) ∧
      (∀ c xs, llm (subQueryPrompt query) = Except.ok c →
        jsonLoads c = some (PyJson.arr xs) →
        generate_sub_queries llm jsonLoads query = Except.ok xs) ∧
      (∀ c, llm (subQueryPrompt query) = Except.ok c →
        (∀ xs, jsonLoads c ≠ some (PyJson.arr xs)) →
        generate_sub_queries llm jsonLoads query = Except.ok [query]) := by
  refine ⟨?_, ?_, ?_⟩
  · intro e he
    simp [generate_sub_queries, he]
  · intro c xs hc hj
    simp [generate_sub_queries, hc, hj]
  · intro c hc hj
    cases hparse : jsonLoads c with
    | none => simp [generate_sub_queries, hc, hparse]
    | some v =>
      cases v with
      | arr xs => exact absurd hparse (hj xs)
      | nonArr => simp [generate_sub_queries, hc, hparse]

/-- Witness for the amended C7 theorem: a successful provider call whose
output is unparseable yields exactly `["q"]`. -/
theorem generate_sub_queries_amended_witness :
    generate_sub_queries (fun _ => Except.ok "oops") jsonLoads0 "q" =
      Except.ok ["q"] :=
  (generate_sub_queries_amended (fun _ => Except.ok "oops") jsonLoads0 "q").2.2
    "oops" rfl (fun xs h => by simp [jsonLoads0] at h)

/-! ### Lemmas about the reflective loop's trace -/

/-- Accumulator lemma: the trace argument of `ragLoop` is a pure prefix of
the final trace and does not influence the result. -/
theorem ragLoop_append (env : AgentEnv) (maxIter : ℕ) (threshold : ℚ)
    (query : String) :
    ∀ fuel iteration cq ba bc bch tr,
      ragLoop env maxIter threshold query fuel iteration cq ba bc bch tr =
        ((ragLoop env maxIter threshold query fuel iteration cq ba bc bch []).1,
          tr ++ (ragLoop env maxIter threshold query fuel iteration cq ba bc bch []).2) := by
  intro fuel
  induction fuel with
  | zero =>
    intro iteration cq ba bc bch tr
    simp [ragLoop]
  | succ f ih =>
    intro iteration cq ba bc bch tr
    simp only [ragLoop]
    by_cases hch : (env.retrieve cq).isEmpty
    · simp [hch]
    · simp only [hch, if_false, Bool.false_eq_true]
      by_cases hit : iteration < maxIter
      · simp only [hit, if_true]
        by_cases hacc : threshold ≤ confOf (env.reflect query
            (env.llm (env.formatPrompt
              (String.intercalate "\n\n---\n\n" ((env.retrieve cq).map Document.page_content))
              env.history query)) (env.retrieve cq))
        · simp [hacc]
        · simp only [hacc, if_false]
          rw [ih, ih _ _ _ _ _ ([] ++ [_])]
          simp
      · simp only [hit, if_false]
        rw [ih, ih _ _ _ _ _ ([] ++ [_])]
        simp

/-- The first trace entry of a run records the query the run started with. -/
theorem ragLoop_trace_head (env : AgentEnv) (maxIter : ℕ) (threshold : ℚ)
    (query : String) :
    ∀ fuel iteration cq ba bc bch e rest,
      (ragLoop env maxIter threshold query fuel iteration cq ba bc bch []).2 =
        e :: rest → e.retrieval_query = cq := by
  intro fuel iteration cq ba bc bch e rest h
  match fuel with
  | 0 => simp [ragLoop] at h
  | f + 1 =>
    simp only [ragLoop] at h
    by_cases hch : (env.retrieve cq).isEmpty
    · simp [hch] at h
    · simp only [hch, if_false, Bool.false_eq_true] at h
      by_cases hit : iteration < maxIter
      · simp only [hit, if_true] at h
        by_cases hacc : threshold ≤ confOf (env.reflect query
            (env.llm (env.formatPrompt
              (String.intercalate "\n\n---\n\n" ((env.retrieve cq).map Document.page_content))
              env.history query)) (env.retrieve cq))
        · simp only [hacc, if_true] at h
          simp at h
          obtain ⟨h1, -⟩ := h
          rw [← h1]
        · simp only [hacc, if_false] at h
          rw [ragLoop_append] at h
          simp at h
          obtain ⟨h1, -⟩ := h
          rw [← h1]
      · simp only [hit, if_false] at h
        rw [ragLoop_append] at h
        simp at h
        obtain ⟨h1, -⟩ := h
        rw [← h1]

/-- Every trace entry hands the ORIGINAL user question to the generation
prompt, retrieves with its recorded query, generates from its recorded
chunks, and any recorded verdict is the reflector's output on that answer
(the reflector, too, is always called with the original question). -/
theorem ragLoop_trace_entries (env : AgentEnv) (maxIter : ℕ) (threshold : ℚ)
    (query : String) :
    ∀ fuel iteration cq ba bc bch,
      ∀ e ∈ (ragLoop env maxIter threshold query fuel iteration cq ba bc bch []).2,
        e.gen_question = query ∧
          e.chunks = env.retrieve e.retrieval_query ∧
          e.answer = env.llm (env.formatPrompt
            (String.intercalate "\n\n---\n\n" (e.chunks.map Document.page_content))
            env.history query) ∧
          ∀ r, e.reflected = some r → r = env.reflect query e.answer e.chunks := by
  intro fuel
  induction fuel with
  | zero =>
    intro iteration cq ba bc bch e he
    simp [ragLoop] at he
  | succ f ih =>
    intro iteration cq ba bc bch e he
    simp only [ragLoop] at he
    by_cases hch : (env.retrieve cq).isEmpty
    · simp [hch] at he
    · simp only [hch, if_false, Bool.false_eq_true] at he
      by_cases hit : iteration < maxIter
      · simp only [hit, if_true] at he
        by_cases hacc : threshold ≤ confOf (env.reflect query
            (env.llm (env.formatPrompt
              (String.intercalate "\n\n---\n\n" ((env.retrieve cq).map Document.page_content))
              env.history query)) (env.retrieve cq))
        · simp only [hacc, if_true] at he
          simp at he
          subst he
          refine ⟨rfl, rfl, rfl, ?_⟩
          intro r hr
          simp at hr
          rw [hr]
        · simp only [hacc, if_false] at he
          rw [ragLoop_append] at he
          simp only [List.nil_append, List.cons_append, List.mem_cons] at he
          rcases he with he | he
          · subst he
            refine ⟨rfl, rfl, rfl, ?_⟩
            intro r hr
            simp at hr
            rw [hr]
          · exact ih _ _ _ _ _ e he
      · simp only [hit, if_false] at he
        rw [ragLoop_append] at he
        simp only [List.nil_append, List.cons_append, List.mem_cons] at he
        rcases he with he | he
        · subst he
          refine ⟨rfl, rfl, rfl, ?_⟩
          intro r hr
          simp at hr
        · exact ih _ _ _ _ _ e he

/-- Between two consecutive trace entries, the second retrieval query is
`nextQuery` of the first entry's verdict: the recorded retry suggestion when
BOTH `should_retry` and a non-empty `retry_suggestion` are present, else the
unchanged first query. -/
theorem ragLoop_consecutive (env : AgentEnv) (maxIter : ℕ) (threshold : ℚ)
    (query : String) :
    ∀ fuel iteration cq ba bc bch i a b r,
      ((ragLoop env maxIter threshold query fuel iteration cq ba bc bch []).2)[i]? =
          some a →
        ((ragLoop env maxIter threshold query fuel iteration cq ba bc bch []).2)[i+1]? =
          some b →
        a.reflected = some r →
        b.retrieval_query = nextQuery r a.retrieval_query := by
  intro fuel
  induction fuel with
  | zero =>
    intro iteration cq ba bc bch i a b r ha hb hr
    simp [ragLoop] at ha
  | succ f ih =>
    intro iteration cq ba bc bch i a b r ha hb hr
    simp only [ragLoop] at ha hb
    by_cases hch : (env.retrieve cq).isEmpty
    · simp [hch] at ha
    · simp only [hch, if_false, Bool.false_eq_true] at ha hb
      by_cases hit : iteration < maxIter
      · simp only [hit, if_true] at ha hb
        by_cases hacc : threshold ≤ confOf (env.reflect query
            (env.llm (env.formatPrompt
              (String.intercalate "\n\n---\n\n" ((env.retrieve cq).map Document.page_content))
              env.history query)) (env.retrieve cq))
        · simp only [hacc, if_true] at ha hb
          simp at hb
        · simp only [hacc, if_false] at ha hb
          rw [ragLoop_append] at ha hb
          simp only [List.nil_append, List.cons_append] at ha hb
          match i with
          | 0 =>
            simp at ha hb
            cases hT : (ragLoop env maxIter threshold query f (iteration + 1)
                (nextQuery (env.reflect query
                  (env.llm (env.formatPrompt
                    (String.intercalate "\n\n---\n\n" ((env.retrieve cq).map Document.page_content))
                    env.history query)) (env.retrieve cq)) cq)
                (if bc < confOf (env.reflect query
                  (env.llm (env.formatPrompt
                    (String.intercalate "\n\n---\n\n" ((env.retrieve cq).map Document.page_content))
                    env.history query)) (env.retrieve cq)) then
                    env.llm (env.formatPrompt
                      (String.intercalate "\n\n---\n\n" ((env.retrieve cq).map Document.page_content))
                      env.history query) else ba)
                (if bc < confOf (env.reflect query
                  (env.llm (env.formatPrompt
                    (String.intercalate "\n\n---\n\n" ((env.retrieve cq).map Document.page_content))
                    env.history query)) (env.retrieve cq)) then
                    confOf (env.reflect query
                      (env.llm (env.formatPrompt
                        (String.intercalate "\n\n---\n\n" ((env.retrieve cq).map Document.page_content))
                        env.history query)) (env.retrieve cq)) else bc)
                (if bc < confOf (env.reflect query
                  (env.llm (env.formatPrompt
                    (String.intercalate "\n\n---\n\n" ((env.retrieve cq).map Document.page_content))
                    env.history query)) (env.retrieve cq)) then env.retrieve cq else bch)
                []).2 with
            | nil => rw [hT] at hb; simp at hb
            | cons e0 rest =>
              rw [hT] at hb
              simp at hb
              have := ragLoop_trace_head env maxIter threshold query _ _ _ _ _ _ _ _ hT
              subst ha
              simp at hr
              subst hr
              rw [← hb, this]
          | Nat.succ j =>
            simp at ha hb
            exact ih _ _ _ _ _ j a b r ha hb hr
      · simp only [hit, if_false] at ha hb
        rw [ragLoop_append] at ha hb
        simp only [List.nil_append, List.cons_append] at ha hb
        match i with
        | 0 =>
          simp at ha
          subst ha
          simp at hr
        | Nat.succ j =>
          simp at ha hb
          exact ih _ _ _ _ _ j a b r ha hb hr

/-- Claim C8 amended: in every non-final iteration whose confidence is below
the acceptance threshold, the next retrieval's query is the verdict's
`retry_query` only when the verdict ALSO requests a retry
(`should_retry` truthy) and the `retry_query` is non-empty; in every other
case (including a non-empty `retry_query` with `should_retry` absent or
false) the same query is retried unchanged. -/
theorem rag_answer_next_query (env : AgentEnv) (maxIter : ℕ) (threshold : ℚ)
    (query : String) (i : ℕ) (a b : CycleLog) (r : Reflection)
    (ha : ((rag_answer env maxIter threshold query).2)[i]? = some a)
    (hb : ((rag_answer env maxIter threshold query).2)[i+1]? = some b)
    (hrefl : a.reflected = some r) (_hconf : confOf r < threshold) :
    b.retrieval_query =
      if r.should_retry.getD false = true ∧ r.retry_suggestion.getD "" ≠ "" then
        r.retry_suggestion.getD ""
      else a.retrieval_query := by
  have hconsec := ragLoop_consecutive env maxIter threshold query (maxIter + 1) 0
    query "" 0 [] i a b r ha hb hrefl
  rw [hconsec]
  unfold nextQuery retryCond
  by_cases h1 : r.should_retry.getD false = true
  · by_cases h2 : r.retry_suggestion.getD "" = ""
    · simp [h1, h2]
    · simp [h1, h2]
  · simp [h1]

/-- Witness for the amended C8 theorem: the C3 stub environment at the first
two cycles, where `should_retry` and the retry query are both present, so the
second cycle retrieves with "revised". -/
theorem rag_answer_next_query_witness :
    (⟨"revised", [cDoc], "orig", "ans",
        some ⟨some (1/10), some true, some "revised"⟩⟩ : CycleLog).retrieval_query =
      if (⟨some (1/10), some true, some "revised"⟩ :
            Reflection).should_retry.getD false = true ∧
          (⟨some (1/10), some true, some "revised"⟩ :
            Reflection).retry_suggestion.getD "" ≠ "" then
        (⟨some (1/10), some true, some "revised"⟩ :
          Reflection).retry_suggestion.getD ""
      else
        (⟨"orig", [cDoc], "orig", "ans",
          some ⟨some (1/10), some true, some "revised"⟩⟩ : CycleLog).retrieval_query :=
  rag_answer_next_query envC3 cMAX_REFLECTION_ITERATIONS cCONFIDENCE_THRESHOLD
    "orig" 0
    ⟨"orig", [cDoc], "orig", "ans", some ⟨some (1/10), some true, some "revised"⟩⟩
    ⟨"revised", [cDoc], "orig", "ans", some ⟨some (1/10), some true, some "revised"⟩⟩
    ⟨some (1/10), some true, some "revised"⟩
    (by decide) (by decide) (by decide) (by decide)

/-- Claim C9: in every iteration of the reflective loop, the generation
prompt is built with the ORIGINAL user question as the `question` argument —
never the possibly-revised current query, which only steers retrieval. -/
theorem rag_answer_question_is_original (env : AgentEnv) (maxIter : ℕ)
    (threshold : ℚ) (query : String) :
    ∀ e ∈ (rag_answer env maxIter threshold query).2, e.gen_question = query :=
  fun e he =>
    (ragLoop_trace_entries env maxIter threshold query (maxIter + 1) 0 query
      "" 0 [] e he).1

/-- Witness for C9: the final cycle of the C3 stub run retrieves with
"revised" but still presents "orig" to the generator. -/
theorem rag_answer_question_is_original_witness :
    (⟨"revised", [cDoc], "orig", "ans", none⟩ : CycleLog).gen_question = "orig" :=
  rag_answer_question_is_original envC3 cMAX_REFLECTION_ITERATIONS
    cCONFIDENCE_THRESHOLD "orig" ⟨"revised", [cDoc], "orig", "ans", none⟩
    (by decide)

/-- Folding `max` over a list only increases the accumulator. -/
theorem foldl_max_le (l : List ℚ) : ∀ a : ℚ, a ≤ l.foldl max a := by
  induction l with
  | nil => intro a; simp
  | cons c cs ih =>
    intro a
    simp only [List.foldl_cons]
    exact le_trans (le_max_left a c) (ih (max a c))

/-- Every list element is bounded by the `max`-fold over the list. -/
theorem mem_le_foldl_max (l : List ℚ) : ∀ a : ℚ, ∀ c ∈ l, c ≤ l.foldl max a := by
  induction l with
  | nil => intro a c hc; simp at hc
  | cons x xs ih =>
    intro a c hc
    simp only [List.mem_cons] at hc
    rcases hc with rfl | hc
    · exact le_trans (le_max_right a c) (foldl_max_le xs (max a c))
    · exact ih (max a x) c hc

/-- A `max`-fold is either the initial accumulator or one of the list
elements. -/
theorem foldl_max_eq_or_mem (l : List ℚ) : ∀ a : ℚ, l.foldl max a = a ∨ l.foldl max a ∈ l := by
  induction l with
  | nil => intro a; left; rfl
  | cons x xs ih =>
    intro a
    simp only [List.foldl_cons, List.mem_cons]
    rcases ih (max a x) with h | h
    · rcases max_choice a x with hm | hm
      · left; rw [h, hm]
      · right; left; rw [h, hm]
    · right; right; exact h


/-- The source's `if confidence > best: best = confidence` update is the
binary maximum. -/
theorem max_ite (a b : ℚ) : (if a < b then b else a) = max a b := by
  split
  · exact (max_eq_right (le_of_lt (by assumption))).symm
  · exact (max_eq_left (le_of_not_lt (by assumption))).symm

/-- Computation rule for `reflConfs` on the empty trace. -/
theorem reflConfs_nil : reflConfs [] = [] := rfl

/-- Computation rule for `reflConfs` on a reflected cycle. -/
theorem reflConfs_cons_some (e : CycleLog) (r : Reflection) (tr : List CycleLog)
    (h : e.reflected = some r) :
    reflConfs (e :: tr) = confOf r :: reflConfs tr := by
  simp [reflConfs, List.filterMap_cons, h]

/-- Computation rule for `reflConfs` on an unreflected cycle. -/
theorem reflConfs_cons_none (e : CycleLog) (tr : List CycleLog)
    (h : e.reflected = none) :
    reflConfs (e :: tr) = reflConfs tr := by
  simp [reflConfs, List.filterMap_cons, h]

/-- Invariant of an exhausted run (retrieval never empty, every reflection
below threshold): the run executes all remaining iterations, the final cycle
is unreflected and supplies answer/citations/chunk count, and the returned
confidence is the `max`-fold of the reflected confidences over the running
best. -/
theorem ragLoop_exhausted_aux (env : AgentEnv) (maxIter : ℕ) (threshold : ℚ)
    (query : String) (hr : ∀ q, env.retrieve q ≠ [])
    (hlow : ∀ q a ch, confOf (env.reflect q a ch) < threshold) :
    ∀ fuel iteration cq ba bc bch,
      1 ≤ fuel → iteration + fuel = maxIter + 1 →
      (ragLoop env maxIter threshold query fuel iteration cq ba bc bch []).2.length = fuel ∧
        (ragLoop env maxIter threshold query fuel iteration cq ba bc bch []).1.iterations = maxIter + 1 ∧
        (∃ last,
          (ragLoop env maxIter threshold query fuel iteration cq ba bc bch []).2.getLast? = some last ∧
            last.reflected = none ∧
            (ragLoop env maxIter threshold query fuel iteration cq ba bc bch []).1.answer = last.answer ∧
            (ragLoop env maxIter threshold query fuel iteration cq ba bc bch []).1.citations =
              format_citations_block last.chunks ∧
            (ragLoop env maxIter threshold query fuel iteration cq ba bc bch []).1.chunks_used =
              last.chunks.length) ∧
        (ragLoop env maxIter threshold query fuel iteration cq ba bc bch []).1.confidence =
          (reflConfs (ragLoop env maxIter threshold query fuel iteration cq ba bc bch []).2).foldl max bc ∧
        (reflConfs (ragLoop env maxIter threshold query fuel iteration cq ba bc bch []).2).length =
          fuel - 1 := by
  intro fuel
  induction fuel with
  | zero =>
    intro iteration cq ba bc bch h1 h2
    omega
  | succ f ih =>
    intro iteration cq ba bc bch h1 h2
    have hch : (env.retrieve cq).isEmpty = false := by
      rw [List.isEmpty_eq_false]
      exact hr cq
    simp only [ragLoop, hch, Bool.false_eq_true, if_false]
    match f, h2, ih with
    | 0, h2, ih =>
      have hit : ¬ (iteration < maxIter) := by omega
      simp only [hit, if_false]
      simp [ragLoop, reflConfs]
      omega
    | Nat.succ f', h2, ih =>
      have hit : iteration < maxIter := by omega
      have hacc : ¬ (threshold ≤ confOf (env.reflect query
          (env.llm (env.formatPrompt
            (String.intercalate "\n\n---\n\n" ((env.retrieve cq).map Document.page_content))
            env.history query)) (env.retrieve cq))) :=
        not_le_of_lt (hlow _ _ _)
      simp only [hit, if_true, hacc, if_false]
      rw [ragLoop_append]
      have hrec := ih (iteration + 1) (nextQuery (env.reflect query
          (env.llm (env.formatPrompt
            (String.intercalate "\n\n---\n\n" ((env.retrieve cq).map Document.page_content))
            env.history query)) (env.retrieve cq)) cq)
        (if bc < confOf (env.reflect query
            (env.llm (env.formatPrompt
              (String.intercalate "\n\n---\n\n" ((env.retrieve cq).map Document.page_content))
              env.history query)) (env.retrieve cq)) then
          env.llm (env.formatPrompt
            (String.intercalate "\n\n---\n\n" ((env.retrieve cq).map Document.page_content))
            env.history query) else ba)
        (if bc < confOf (env.reflect query
            (env.llm (env.formatPrompt
              (String.intercalate "\n\n---\n\n" ((env.retrieve cq).map Document.page_content))
              env.history query)) (env.retrieve cq)) then
          confOf (env.reflect query
            (env.llm (env.formatPrompt
              (String.intercalate "\n\n---\n\n" ((env.retrieve cq).map Document.page_content))
              env.history query)) (env.retrieve cq)) else bc)
        (if bc < confOf (env.reflect query
            (env.llm (env.formatPrompt
              (String.intercalate "\n\n---\n\n" ((env.retrieve cq).map Document.page_content))
              env.history query)) (env.retrieve cq)) then env.retrieve cq else bch)
        (by omega) (by omega)
      obtain ⟨hlen, hiter, ⟨last, hlast, hrefl, hans, hcit, hcu⟩, hconf, hclen⟩ := hrec
      refine ⟨?_, ?_, ⟨last, ?_, hrefl, ?_, ?_, ?_⟩, ?_, ?_⟩
      · simp only [List.nil_append, List.cons_append, List.length_cons, hlen]
      · simpa using hiter
      · have hne := List.length_pos.mp (hlen.symm ▸ Nat.succ_pos f')
        obtain ⟨b, l, hbl⟩ := List.exists_cons_of_ne_nil hne
        rw [hbl] at hlast
        simp only [List.nil_append, List.cons_append, hbl, List.getLast?_cons_cons]
        exact hlast
      · simpa using hans
      · simpa using hcit
      · simpa using hcu
      · simp only [List.nil_append, List.cons_append]
        rw [reflConfs_cons_some _ _ _ rfl, List.foldl_cons, ← max_ite]
        exact hconf
      · simp only [List.nil_append, List.cons_append]
        rw [reflConfs_cons_some _ _ _ rfl, List.length_cons, hclen]
        omega


/-- Claim C10: when the reflective loop exhausts its iteration budget
without an acceptance (retrieval always non-empty, every reflection below
the threshold, confidences non-negative), the returned record mixes
attempts: answer, citations and chunk count come from the final, unreflected
attempt, while the returned confidence is the highest confidence observed
among the earlier below-threshold reflections — an element of those earlier
confidences when there were any, and 0 when there were none — i.e. never an
assessment of the answer actually returned. -/
theorem rag_answer_exhausted_mixes_attempts (env : AgentEnv) (maxIter : ℕ)
    (threshold : ℚ) (query : String)
    (hr : ∀ q, env.retrieve q ≠ [])
    (hlow : ∀ q a ch, confOf (env.reflect q a ch) < threshold)
    (hpos : ∀ q a ch, 0 ≤ confOf (env.reflect q a ch)) :
    (rag_answer env maxIter threshold query).2.length = maxIter + 1 ∧
      (rag_answer env maxIter threshold query).1.iterations = maxIter + 1 ∧
      (∃ last, (rag_answer env maxIter threshold query).2.getLast? = some last ∧
        last.reflected = none ∧
        (rag_answer env maxIter threshold query).1.answer = last.answer ∧
        (rag_answer env maxIter threshold query).1.citations =
          format_citations_block last.chunks ∧
        (rag_answer env maxIter threshold query).1.chunks_used =
          last.chunks.length) ∧
      (reflConfs (rag_answer env maxIter threshold query).2).length = maxIter ∧
      (rag_answer env maxIter threshold query).1.confidence =
        (reflConfs (rag_answer env maxIter threshold query).2).foldl max 0 ∧
      (∀ c ∈ reflConfs (rag_answer env maxIter threshold query).2,
        c ≤ (rag_answer env maxIter threshold query).1.confidence) ∧
      (reflConfs (rag_answer env maxIter threshold query).2 = [] →
        (rag_answer env maxIter threshold query).1.confidence = 0) ∧
      (reflConfs (rag_answer env maxIter threshold query).2 ≠ [] →
        (rag_answer env maxIter threshold query).1.confidence ∈
          reflConfs (rag_answer env maxIter threshold query).2) := by
  have hnonneg : ∀ c ∈ reflConfs (rag_answer env maxIter threshold query).2, 0 ≤ c := by
    intro c hc
    simp only [reflConfs, List.mem_filterMap] at hc
    obtain ⟨e, he, hfe⟩ := hc
    obtain ⟨r, hrr, hcr⟩ := Option.map_eq_some'.mp hfe
    have horig := (ragLoop_trace_entries env maxIter threshold query (maxIter + 1)
      0 query "" 0 [] e he).2.2.2 r hrr
    rw [← hcr, horig]
    exact hpos _ _ _
  obtain ⟨hlen, hiter, hex, hconf, hclen⟩ :=
    ragLoop_exhausted_aux env maxIter threshold query hr hlow (maxIter + 1) 0
      query "" 0 [] (by omega) (by omega)
  simp only [rag_answer]
  refine ⟨hlen, hiter, hex, by simpa using hclen, hconf, ?_, ?_, ?_⟩
  · intro c hc
    rw [hconf]
    exact mem_le_foldl_max _ 0 c hc
  · intro hnil
    rw [hconf, hnil]
    rfl
  · intro hnn
    rcases foldl_max_eq_or_mem
        (reflConfs (ragLoop env maxIter threshold query (maxIter + 1) 0 query "" 0 [] []).2) 0 with h | h
    · rw [hconf, h]
      obtain ⟨c0, hc0⟩ := List.exists_mem_of_ne_nil _ hnn
      have h1 := hnonneg c0 hc0
      have h2 := mem_le_foldl_max
        (reflConfs (ragLoop env maxIter threshold query (maxIter + 1) 0 query "" 0 [] []).2) 0 c0 hc0
      rw [h] at h2
      have h3 : c0 = 0 := le_antisymm h2 h1
      exact h3 ▸ hc0
    · rw [hconf]
      exact h

/-- Witness for C10 at the concrete C3 stub environment. -/
theorem rag_answer_exhausted_mixes_attempts_witness :
    (rag_answer envC3 cMAX_REFLECTION_ITERATIONS cCONFIDENCE_THRESHOLD
        "orig").1.confidence =
      (reflConfs (rag_answer envC3 cMAX_REFLECTION_ITERATIONS
        cCONFIDENCE_THRESHOLD "orig").2).foldl max 0 :=
  (rag_answer_exhausted_mixes_attempts envC3 cMAX_REFLECTION_ITERATIONS
    cCONFIDENCE_THRESHOLD "orig" (fun _ => List.cons_ne_nil _ _)
    (fun _ _ _ => by norm_num [envC3, stubReflect, confOf, cCONFIDENCE_THRESHOLD])
    (fun _ _ _ => by norm_num [envC3, stubReflect, confOf])).2.2.2.2.1

/-- Dict lookup distributes over append of association lists. -/
theorem alistGet_append {α : Type} (m m' : List (String × α)) (k : String) :
    alistGet (m ++ m') k = (alistGet m k).or (alistGet m' k) := by
  simp [alistGet, List.find?_append, Option.map_or']

/-- Dict lookup succeeds exactly for present keys. -/
theorem alistGet_isSome_iff {α : Type} (m : List (String × α)) (k : String) :
    (alistGet m k).isSome = true ↔ k ∈ m.map Prod.fst := by
  simp [alistGet, Option.isSome_map', List.find?_isSome, List.mem_map, beq_iff_eq]

/-- Dict lookup fails exactly for absent keys. -/
theorem alistGet_eq_none_iff {α : Type} (m : List (String × α)) (k : String) :
    alistGet m k = none ↔ k ∉ m.map Prod.fst := by
  rw [← alistGet_isSome_iff]
  cases alistGet m k <;> simp

/-- The in-place score update does not change the key sequence. -/
theorem alistAdd_keys (m : List (String × ℚ)) (k : String) (v : ℚ) :
    (alistAdd m k v).map Prod.fst = m.map Prod.fst := by
  induction m with
  | nil => rfl
  | cons p ps ih =>
    simp only [alistAdd, List.map_cons, List.cons.injEq]
    refine ⟨?_, ?_⟩
    · cases h : (p.1 == k) <;> simp
    · simpa [alistAdd] using ih

/-- Lookup after an in-place `+= v` update on key `k`. -/
theorem alistGet_alistAdd (m : List (String × ℚ)) (k : String) (v : ℚ) (k' : String) :
    alistGet (alistAdd m k v) k' =
      if k' = k then (alistGet m k').map (· + v) else alistGet m k' := by
  induction m with
  | nil => by_cases hk : k' = k <;> simp [alistAdd, alistGet, hk]
  | cons p ps ih =>
    simp only [alistAdd, alistGet, List.map_cons, List.find?_cons] at ih ⊢
    by_cases h1 : p.1 = k
    · subst h1
      by_cases hk : k' = p.1
      · subst hk
        simp
      · have hb : (p.1 == k') = false := beq_eq_false_iff_ne.mpr (fun hc => hk hc.symm)
        simp [hb, hk] at ih ⊢
        exact ih
    · by_cases h2 : p.1 = k'
      · subst h2
        have hb : (p.1 == k) = false := beq_eq_false_iff_ne.mpr h1
        simp [hb, h1]
      · have hb : (p.1 == k) = false := beq_eq_false_iff_ne.mpr h1
        have hb2 : (p.1 == k') = false := beq_eq_false_iff_ne.mpr h2
        by_cases hk : k' = k <;> simp [hb, hb2, hk] at ih ⊢ <;> exact ih

/-- One fusion step keeps the FIRST-seen representative of each key: the
new document is only consulted when the key is absent. -/
theorem rrfStep_map_get (kc rank : ℕ) (st : RRFState) (d : Document) (k : String) :
    alistGet (rrfStep kc rank st d).doc_map k =
      (alistGet st.doc_map k).or (if rrfKey d == k then some d else none) := by
  unfold rrfStep
  by_cases hp : (alistGet st.doc_map (rrfKey d)).isSome = true
  · simp only [hp, if_true]
    by_cases hk : (rrfKey d == k)
    · have hk' : rrfKey d = k := beq_iff_eq.mp hk
      subst hk'
      rw [if_pos hk]
      exact (Option.or_of_isSome hp).symm
    · simp at hk
      have hb : (rrfKey d == k) = false := beq_eq_false_iff_ne.mpr hk
      simp [hb]
  · simp only [hp, if_false, Bool.false_eq_true]
    rw [alistGet_append]
    congr 1
    by_cases hk : (rrfKey d == k)
    · simp [alistGet, List.find?_cons, hk]
    · simp at hk
      have hb : (rrfKey d == k) = false := beq_eq_false_iff_ne.mpr hk
      simp [alistGet, List.find?_cons, hb]

/-- One fusion step performs keep-first insertion of the key into both
dicts (which stay in sync). -/
theorem rrfStep_keys (kc rank : ℕ) (st : RRFState) (d : Document)
    (hsync : st.doc_scores.map Prod.fst = st.doc_map.map Prod.fst) :
    (rrfStep kc rank st d).doc_scores.map Prod.fst =
        fsInsert (st.doc_scores.map Prod.fst) (rrfKey d) ∧
      (rrfStep kc rank st d).doc_map.map Prod.fst =
        fsInsert (st.doc_map.map Prod.fst) (rrfKey d) := by
  unfold rrfStep fsInsert
  by_cases hp : (alistGet st.doc_map (rrfKey d)).isSome = true
  · have hmem : rrfKey d ∈ st.doc_map.map Prod.fst := (alistGet_isSome_iff _ _).mp hp
    have hmem' : rrfKey d ∈ st.doc_scores.map Prod.fst := hsync ▸ hmem
    simp [hp, hmem, hmem', alistAdd_keys]
  · have hmem : rrfKey d ∉ st.doc_map.map Prod.fst := by
      intro hc
      exact hp ((alistGet_isSome_iff _ _).mpr hc)
    have hmem' : rrfKey d ∉ st.doc_scores.map Prod.fst := fun hc => hmem (hsync ▸ hc)
    simp [hp, hmem, hmem', alistAdd_keys]

/-- One fusion step adds exactly `1 / (k + rank + 1)` to the score of the
processed document's key and leaves every other score unchanged. -/
theorem rrfStep_score (kc rank : ℕ) (st : RRFState) (d : Document) (k : String)
    (hsync : st.doc_scores.map Prod.fst = st.doc_map.map Prod.fst) :
    rrfScore (rrfStep kc rank st d) k =
      rrfScore st k +
        (if rrfKey d == k then 1 / ((kc : ℚ) + (rank : ℚ) + 1) else 0) := by
  unfold rrfStep rrfScore
  by_cases hp : (alistGet st.doc_map (rrfKey d)).isSome = true
  · simp only [hp, if_true]
    rw [alistGet_alistAdd]
    by_cases hk : k = rrfKey d
    · subst hk
      have hs : (alistGet st.doc_scores (rrfKey d)).isSome = true := by
        rw [alistGet_isSome_iff, hsync]
        exact (alistGet_isSome_iff _ _).mp hp
      obtain ⟨x, hx⟩ := Option.isSome_iff_exists.mp hs
      simp [hx, beq_self_eq_true]
    · have hb : (rrfKey d == k) = false := beq_eq_false_iff_ne.mpr (fun hc => hk hc.symm)
      simp [hk, hb]
  · simp only [hp, if_false, Bool.false_eq_true]
    rw [alistGet_alistAdd]
    by_cases hk : k = rrfKey d
    · subst hk
      have hs : alistGet st.doc_scores (rrfKey d) = none := by
        rw [alistGet_eq_none_iff, hsync]
        intro hc
        exact hp ((alistGet_isSome_iff _ _).mpr hc)
      rw [alistGet_append, hs]
      simp [alistGet, List.find?_cons, beq_self_eq_true]
    · have hb : (rrfKey d == k) = false := beq_eq_false_iff_ne.mpr (fun hc => hk hc.symm)
      rw [alistGet_append]
      simp [hk, hb, alistGet, List.find?_cons]

/-- First-seen deduplication processes concatenation sequentially. -/
theorem fsDedupAux_append (xs ys : List String) :
    ∀ acc, fsDedupAux acc (xs ++ ys) = fsDedupAux (fsDedupAux acc xs) ys := by
  induction xs with
  | nil => intro acc; rfl
  | cons x xs ih =>
    intro acc
    simp only [List.cons_append, fsDedupAux]
    exact ih _

/-- Processing one ranked list: the representative of a key is the previous
one, or else the first list element carrying the key. -/
theorem rrfList_map_get (kc : ℕ) (k : String) :
    ∀ (l : List Document) (r : ℕ) (st : RRFState),
      alistGet (rrfList kc r st l).doc_map k =
        (alistGet st.doc_map k).or (l.find? (fun d => rrfKey d == k)) := by
  intro l
  induction l with
  | nil => intro r st; simp [rrfList]
  | cons d ds ih =>
    intro r st
    simp only [rrfList]
    rw [ih, rrfStep_map_get, Option.or_assoc]
    congr 1
    by_cases hd : (rrfKey d == k)
    · simp [List.find?_cons, hd]
    · have hb : (rrfKey d == k) = false := by simpa using hd
      simp [List.find?_cons, hb]

/-- Processing one ranked list performs first-seen deduplication of its key
sequence into both dicts. -/
theorem rrfList_keys (kc : ℕ) :
    ∀ (l : List Document) (r : ℕ) (st : RRFState),
      st.doc_scores.map Prod.fst = st.doc_map.map Prod.fst →
      (rrfList kc r st l).doc_scores.map Prod.fst =
          fsDedupAux (st.doc_scores.map Prod.fst) (l.map rrfKey) ∧
        (rrfList kc r st l).doc_map.map Prod.fst =
          fsDedupAux (st.doc_map.map Prod.fst) (l.map rrfKey) := by
  intro l
  induction l with
  | nil => intro r st hsync; simp [rrfList, fsDedupAux]
  | cons d ds ih =>
    intro r st hsync
    obtain ⟨h1, h2⟩ := rrfStep_keys kc r st d hsync
    have hsync' : (rrfStep kc r st d).doc_scores.map Prod.fst =
        (rrfStep kc r st d).doc_map.map Prod.fst := by
      rw [h1, h2, hsync]
    obtain ⟨g1, g2⟩ := ih (r + 1) (rrfStep kc r st d) hsync'
    constructor
    · rw [show rrfList kc r st (d :: ds) = rrfList kc (r + 1) (rrfStep kc r st d) ds from rfl,
        g1, h1]
      rfl
    · rw [show rrfList kc r st (d :: ds) = rrfList kc (r + 1) (rrfStep kc r st d) ds from rfl,
        g2, h2]
      rfl

/-- Processing one ranked list adds the rank-indexed contributions of every
occurrence of the key in that list. -/
theorem rrfList_score (kc : ℕ) (k : String) :
    ∀ (l : List Document) (r : ℕ) (st : RRFState),
      st.doc_scores.map Prod.fst = st.doc_map.map Prod.fst →
      rrfScore (rrfList kc r st l) k = rrfScore st k + rankSum kc k r l := by
  intro l
  induction l with
  | nil => intro r st hsync; simp [rrfList, rankSum]
  | cons d ds ih =>
    intro r st hsync
    obtain ⟨h1, h2⟩ := rrfStep_keys kc r st d hsync
    have hsync' : (rrfStep kc r st d).doc_scores.map Prod.fst =
        (rrfStep kc r st d).doc_map.map Prod.fst := by
      rw [h1, h2, hsync]
    rw [show rrfList kc r st (d :: ds) = rrfList kc (r + 1) (rrfStep kc r st d) ds from rfl,
      ih (r + 1) _ hsync', rrfStep_score kc r st d k hsync]
    show rrfScore st k +
        (if rrfKey d == k then 1 / ((kc : ℚ) + (r : ℚ) + 1) else 0) +
        rankSum kc k (r + 1) ds =
      rrfScore st k + rankSum kc k r (d :: ds)
    rw [show rankSum kc k r (d :: ds) =
        (if rrfKey d == k then 1 / ((kc : ℚ) + (r : ℚ) + 1) else 0) +
          rankSum kc k (r + 1) ds from rfl]
    ring

/-- The whole fusion fold: a key's representative is its first occurrence
across the concatenated input lists. -/
theorem rrfFold_map_get (kc : ℕ) (k : String) :
    ∀ (lists : List (List Document)) (st : RRFState),
      alistGet ((lists.foldl (fun st l => rrfList kc 0 st l) st)).doc_map k =
        (alistGet st.doc_map k).or
          (lists.flatten.find? (fun d => rrfKey d == k)) := by
  intro lists
  induction lists with
  | nil => intro st; simp
  | cons l ls ih =>
    intro st
    simp only [List.foldl_cons, List.flatten_cons]
    rw [ih, rrfList_map_get, List.find?_append, Option.or_assoc]

/-- The whole fusion fold: the key sequence of the dicts is the first-seen
deduplication of all keys in input order. -/
theorem rrfFold_keys (kc : ℕ) :
    ∀ (lists : List (List Document)) (st : RRFState),
      st.doc_scores.map Prod.fst = st.doc_map.map Prod.fst →
      ((lists.foldl (fun st l => rrfList kc 0 st l) st)).doc_scores.map Prod.fst =
          fsDedupAux (st.doc_scores.map Prod.fst) (lists.flatten.map rrfKey) ∧
        ((lists.foldl (fun st l => rrfList kc 0 st l) st)).doc_map.map Prod.fst =
          fsDedupAux (st.doc_map.map Prod.fst) (lists.flatten.map rrfKey) := by
  intro lists
  induction lists with
  | nil => intro st hsync; simp [fsDedupAux]
  | cons l ls ih =>
    intro st hsync
    obtain ⟨h1, h2⟩ := rrfList_keys kc l 0 st hsync
    have hsync' : (rrfList kc 0 st l).doc_scores.map Prod.fst =
        (rrfList kc 0 st l).doc_map.map Prod.fst := by
      rw [h1, h2, hsync]
    obtain ⟨g1, g2⟩ := ih (rrfList kc 0 st l) hsync'
    simp only [List.foldl_cons, List.flatten_cons, List.map_append]
    rw [fsDedupAux_append, fsDedupAux_append]
    exact ⟨by rw [g1, h1], by rw [g2, h2]⟩

/-- The whole fusion fold: a key's score is the sum of its per-list rank
contributions. -/
theorem rrfFold_score (kc : ℕ) (k : String) :
    ∀ (lists : List (List Document)) (st : RRFState),
      st.doc_scores.map Prod.fst = st.doc_map.map Prod.fst →
      rrfScore ((lists.foldl (fun st l => rrfList kc 0 st l) st)) k =
        rrfScore st k + (lists.map (fun l => rankSum kc k 0 l)).sum := by
  intro lists
  induction lists with
  | nil => intro st hsync; simp
  | cons l ls ih =>
    intro st hsync
    obtain ⟨h1, h2⟩ := rrfList_keys kc l 0 st hsync
    have hsync' : (rrfList kc 0 st l).doc_scores.map Prod.fst =
        (rrfList kc 0 st l).doc_map.map Prod.fst := by
      rw [h1, h2, hsync]
    simp only [List.foldl_cons, List.map_cons, List.sum_cons]
    rw [ih (rrfList kc 0 st l) hsync', rrfList_score kc k l 0 st hsync]
    ring

/-- A key absent from a list contributes nothing there. -/
theorem rankSum_of_not_mem (kc : ℕ) (k : String) :
    ∀ (l : List Document), k ∉ l.map rrfKey → ∀ r, rankSum kc k r l = 0 := by
  intro l
  induction l with
  | nil => intro _ r; rfl
  | cons d ds ih =>
    intro hmem r
    simp only [List.map_cons, List.mem_cons] at hmem
    push_neg at hmem
    have hb : (rrfKey d == k) = false := beq_eq_false_iff_ne.mpr (fun hc => hmem.1 hc.symm)
    show (if rrfKey d == k then (1 : ℚ) / ((kc : ℚ) + (r : ℚ) + 1) else 0) +
        rankSum kc k (r + 1) ds = 0
    rw [hb]
    simp [ih hmem.2 (r + 1)]

/-- With duplicate-free keys, a list's contribution is the single term
determined by the key's zero-based rank in that list. -/
theorem rankSum_findIdx (kc : ℕ) (k : String) :
    ∀ (l : List Document), (l.map rrfKey).Nodup →
      ∀ r, rankSum kc k r l =
        match l.findIdx? (fun d => rrfKey d == k) with
        | some i => (1 : ℚ) / ((kc : ℚ) + ((r : ℚ) + (i : ℚ)) + 1)
        | none => 0 := by
  intro l
  induction l with
  | nil => intro _ r; rfl
  | cons d ds ih =>
    intro hnd r
    simp only [List.map_cons, List.nodup_cons] at hnd
    by_cases hd : (rrfKey d == k)
    · have hk : rrfKey d = k := beq_iff_eq.mp hd
      have hmem : k ∉ ds.map rrfKey := hk ▸ hnd.1
      show (if rrfKey d == k then (1 : ℚ) / ((kc : ℚ) + (r : ℚ) + 1) else 0) +
          rankSum kc k (r + 1) ds = _
      rw [rankSum_of_not_mem kc k ds hmem (r + 1)]
      simp [List.findIdx?_cons, hd]
    · have hb : (rrfKey d == k) = false := by simpa using hd
      show (if rrfKey d == k then (1 : ℚ) / ((kc : ℚ) + (r : ℚ) + 1) else 0) +
          rankSum kc k (r + 1) ds = _
      rw [hb]
      simp only [if_false, Bool.false_eq_true, zero_add]
      rw [ih hnd.2 (r + 1)]
      simp only [List.findIdx?_cons, hb, if_false, Bool.false_eq_true]
      rw [List.findIdx?_succ]
      cases hf : ds.findIdx? (fun d => rrfKey d == k) with
      | none => simp [hf]
      | some i =>
        simp [hf]
        ring_nf

/-- Membership in a keep-first insertion. -/
theorem mem_fsInsert (acc : List String) (x y : String) :
    y ∈ fsInsert acc x ↔ y = x ∨ y ∈ acc := by
  unfold fsInsert
  by_cases h : x ∈ acc
  · simp [h]
    intro hy
    subst hy
    exact h
  · simp [h, List.mem_append, or_comm]

/-- Keep-first insertion preserves distinctness. -/
theorem nodup_fsInsert (acc : List String) (x : String) (h : acc.Nodup) :
    (fsInsert acc x).Nodup := by
  unfold fsInsert
  by_cases hx : x ∈ acc
  · simpa [hx]
  · simpa [hx, List.nodup_append] using h

/-- Membership in the first-seen deduplication accumulator. -/
theorem mem_fsDedupAux (l : List String) :
    ∀ acc y, y ∈ fsDedupAux acc l ↔ y ∈ acc ∨ y ∈ l := by
  induction l with
  | nil => intro acc y; simp [fsDedupAux]
  | cons x xs ih =>
    intro acc y
    simp only [fsDedupAux, ih, mem_fsInsert, List.mem_cons]
    tauto

/-- First-seen deduplication preserves distinctness of the accumulator. -/
theorem nodup_fsDedupAux (l : List String) :
    ∀ acc, acc.Nodup → (fsDedupAux acc l).Nodup := by
  induction l with
  | nil => intro acc h; exact h
  | cons x xs ih =>
    intro acc h
    exact ih _ (nodup_fsInsert acc x h)

/-- First-seen deduplication yields a duplicate-free list. -/
theorem nodup_fsDedup (l : List String) : (fsDedup l).Nodup :=
  nodup_fsDedupAux l [] List.nodup_nil

/-- First-seen deduplication preserves membership. -/
theorem mem_fsDedup (l : List String) (y : String) : y ∈ fsDedup l ↔ y ∈ l := by
  simp [fsDedup, mem_fsDedupAux]

/-- A duplicate-free list is ordered by its own index function. -/
theorem nodup_pairwise_indexOf (B : List String) (h : B.Nodup) :
    B.Pairwise (fun a b => B.indexOf a < B.indexOf b) := by
  induction B with
  | nil => exact List.Pairwise.nil
  | cons x B ih =>
    rw [List.nodup_cons] at h
    refine List.Pairwise.cons ?_ ?_
    · intro b hb
      have hbx : b ≠ x := fun hc => h.1 (hc ▸ hb)
      rw [List.indexOf_cons_self, List.indexOf_cons_ne _ (fun hc => hbx hc.symm)]
      omega
    · refine (ih h.2).imp_of_mem ?_
      intro a b ha hb hab
      have hax : a ≠ x := fun hc => h.1 (hc ▸ ha)
      have hbx : b ≠ x := fun hc => h.1 (hc ▸ hb)
      rw [List.indexOf_cons_ne _ (fun hc => hax hc.symm),
        List.indexOf_cons_ne _ (fun hc => hbx hc.symm)]
      omega

/-- Mapping a left inverse over a totally-defined `filterMap` recovers the
original list. -/
theorem filterMap_section {σ τ : Type} (f : τ → σ) (g : σ → Option τ) :
    ∀ (l : List σ), (∀ x ∈ l, ∃ y, g x = some y ∧ f y = x) →
      ((l.filterMap g).map f = l) := by
  intro l
  induction l with
  | nil => intro _; rfl
  | cons x xs ih =>
    intro h
    obtain ⟨y, hy, hfy⟩ := h x (List.mem_cons_self x xs)
    simp only [List.filterMap_cons, hy, List.map_cons, hfy]
    rw [ih (fun z hz => h z (List.mem_cons_of_mem x hz))]

/-- Stability of ordered insertion: inserting an element that precedes (in
the base order `Q`) everything present keeps the combined
score-descending/`Q`-tie-break ordering. -/
theorem pairwise_orderedInsert_stable (score : String → ℚ)
    (Q : String → String → Prop) (a : String) :
    ∀ (L : List String),
      L.Sorted (fun x y => score y ≤ score x) →
      L.Pairwise (fun x y => score y < score x ∨ (score x = score y ∧ Q x y)) →
      (∀ b ∈ L, Q a b) →
      (List.orderedInsert (fun x y => score y ≤ score x) a L).Pairwise
        (fun x y => score y < score x ∨ (score x = score y ∧ Q x y)) := by
  intro L
  induction L with
  | nil =>
    intro _ _ _
    simp [List.orderedInsert]
  | cons b L ih =>
    intro hsort hpair hQ
    by_cases hab : score b ≤ score a
    · rw [List.orderedInsert, if_pos hab]
      refine List.Pairwise.cons ?_ hpair
      intro c hc
      rcases List.mem_cons.mp hc with rfl | hcL
      · rcases lt_or_eq_of_le hab with h | h
        · exact Or.inl h
        · exact Or.inr ⟨h.symm, hQ _ (List.mem_cons_self _ _)⟩
      · have hcb : score c ≤ score b := List.rel_of_sorted_cons hsort c hcL
        rcases lt_or_eq_of_le (le_trans hcb hab) with h | h
        · exact Or.inl h
        · exact Or.inr ⟨h.symm, hQ _ (List.mem_cons_of_mem _ hcL)⟩
    · rw [List.orderedInsert, if_neg hab]
      have hba : score a < score b := lt_of_not_le hab
      refine List.Pairwise.cons ?_
        (ih hsort.of_cons (List.pairwise_cons.mp hpair).2
          (fun c hc => hQ c (List.mem_cons_of_mem _ hc)))
      intro c hc
      rcases (List.mem_orderedInsert _).mp hc with rfl | hcL
      · exact Or.inl hba
      · exact (List.pairwise_cons.mp hpair).1 c hcL

/-- Stability of insertion sort by descending score: the result is ordered
by strictly descending score with ties in the base order `Q`. -/
theorem pairwise_insertionSort_stable (score : String → ℚ)
    (Q : String → String → Prop) (l : List String) (hl : l.Pairwise Q) :
    (List.insertionSort (fun x y => score y ≤ score x) l).Pairwise
      (fun x y => score y < score x ∨ (score x = score y ∧ Q x y)) := by
  haveI : IsTotal String (fun x y => score y ≤ score x) :=
    ⟨fun a b => le_total (score b) (score a)⟩
  haveI : IsTrans String (fun x y => score y ≤ score x) :=
    ⟨fun a b c h1 h2 => le_trans h2 h1⟩
  induction l with
  | nil => simp
  | cons a l ih =>
    rw [List.insertionSort]
    exact pairwise_orderedInsert_stable score Q a _
      (List.sorted_insertionSort _ l)
      (ih (List.pairwise_cons.mp hl).2)
      (fun b hb => (List.pairwise_cons.mp hl).1 b ((List.mem_insertionSort _).mp hb))

/-- From the empty start state, a key's representative is its first
occurrence in the concatenation of all input lists. -/
theorem rrfFold_get_flatten (kc : ℕ) (results_lists : List (List Document)) (k : String) :
    alistGet (rrfFold kc results_lists).doc_map k =
      results_lists.flatten.find? (fun d => rrfKey d == k) := by
  have h := rrfFold_map_get kc k results_lists ⟨[], []⟩
  rw [show rrfFold kc results_lists =
      results_lists.foldl (fun st l => rrfList kc 0 st l) ⟨[], []⟩ from rfl, h]
  rw [show alistGet (RRFState.mk [] []).doc_map k = none from rfl]
  exact Option.none_or

/-- From the empty start state, the dict keys are the first-seen
deduplication of all keys. -/
theorem rrfFold_keys_fsDedup (kc : ℕ) (results_lists : List (List Document)) :
    (rrfFold kc results_lists).doc_scores.map Prod.fst =
      fsDedup (results_lists.flatten.map rrfKey) := by
  have h := (rrfFold_keys kc results_lists ⟨[], []⟩ rfl).1
  rw [show rrfFold kc results_lists =
      results_lists.foldl (fun st l => rrfList kc 0 st l) ⟨[], []⟩ from rfl, h]
  rfl

/-- With duplicate-free keys per list, the accumulated score equals the
specification formula: one term `1 / (k + rank + 1)` per list containing the
key. -/
theorem rrfFold_score_spec (kc : ℕ) (results_lists : List (List Document))
    (hnd : ∀ l ∈ results_lists, (l.map rrfKey).Nodup) (k : String) :
    rrfScore (rrfFold kc results_lists) k = specScore results_lists kc k := by
  have h := rrfFold_score kc k results_lists ⟨[], []⟩ rfl
  rw [show rrfFold kc results_lists =
      results_lists.foldl (fun st l => rrfList kc 0 st l) ⟨[], []⟩ from rfl, h]
  rw [show rrfScore ⟨[], []⟩ k = 0 from rfl, zero_add]
  unfold specScore
  congr 1
  refine List.map_congr_left ?_
  intro l hl
  rw [rankSum_findIdx kc k l (hnd l hl) 0]
  cases hf : l.findIdx? (fun d => rrfKey d == k) with
  | none => rfl
  | some i => simp

/-- Every key surviving the sort has a representative document carrying
exactly that key. -/
theorem rrf_section (kc : ℕ) (results_lists : List (List Document)) :
    ∀ x ∈ List.insertionSort
        (fun a b => rrfScore (rrfFold kc results_lists) b ≤
          rrfScore (rrfFold kc results_lists) a)
        ((rrfFold kc results_lists).doc_scores.map Prod.fst),
      ∃ y, alistGet (rrfFold kc results_lists).doc_map x = some y ∧ rrfKey y = x := by
  intro x hx
  have hxK : x ∈ (rrfFold kc results_lists).doc_scores.map Prod.fst :=
    (List.mem_insertionSort _).mp hx
  rw [rrfFold_keys_fsDedup, mem_fsDedup, List.mem_map] at hxK
  obtain ⟨d, hd, hdx⟩ := hxK
  have hsome : (results_lists.flatten.find? (fun d => rrfKey d == x)).isSome := by
    rw [List.find?_isSome]
    exact ⟨d, hd, by simp [hdx]⟩
  obtain ⟨y, hy⟩ := Option.isSome_iff_exists.mp hsome
  refine ⟨y, ?_, ?_⟩
  · rw [rrfFold_get_flatten]
    exact hy
  · have hpy : (rrfKey y == x) = true := by simpa using List.find?_some hy
    exact beq_iff_eq.mp hpy

/-- The key sequence of the fusion output is the sorted key sequence of the
score dict. -/
theorem rrf_map_key (kc : ℕ) (results_lists : List (List Document)) :
    (reciprocal_rank_fusion results_lists kc).map rrfKey =
      List.insertionSort
        (fun a b => rrfScore (rrfFold kc results_lists) b ≤
          rrfScore (rrfFold kc results_lists) a)
        ((rrfFold kc results_lists).doc_scores.map Prod.fst) :=
  filterMap_section rrfKey (alistGet (rrfFold kc results_lists).doc_map) _
    (rrf_section kc results_lists)

/-- Claim C1: for ranked input lists (duplicate-free keys within each list)
and every fusion constant, the output is the deduplicated chunks — one per
distinct content-prefix key, covering exactly the keys occurring in any
input — ordered by descending fusion score where each key scores
`1 / (k_constant + rank + 1)` summed over the lists in which it appears
(`specScore`), with ties broken by first-seen order across the inputs
(stable sort semantics, stated both as equality with a stable insertion
sort of the first-seen key order and as the pairwise
descending-score/first-seen-tie-break ordering). -/
theorem reciprocal_rank_fusion_spec (results_lists : List (List Document)) (kc : ℕ)
    (hnd : ∀ l ∈ results_lists, (l.map rrfKey).Nodup) :
    ((reciprocal_rank_fusion results_lists kc).map rrfKey).Nodup ∧
      (∀ key, key ∈ (reciprocal_rank_fusion results_lists kc).map rrfKey ↔
        key ∈ results_lists.flatten.map rrfKey) ∧
      (reciprocal_rank_fusion results_lists kc).map rrfKey =
        List.insertionSort
          (fun a b => specScore results_lists kc b ≤ specScore results_lists kc a)
          (fsDedup (results_lists.flatten.map rrfKey)) ∧
      ((reciprocal_rank_fusion results_lists kc).map rrfKey).Pairwise
        (fun a b => specScore results_lists kc b < specScore results_lists kc a ∨
          (specScore results_lists kc a = specScore results_lists kc b ∧
            (fsDedup (results_lists.flatten.map rrfKey)).indexOf a <
              (fsDedup (results_lists.flatten.map rrfKey)).indexOf b)) := by
  have hrel : (fun a b => rrfScore (rrfFold kc results_lists) b ≤
      rrfScore (rrfFold kc results_lists) a) =
      (fun a b => specScore results_lists kc b ≤ specScore results_lists kc a) := by
    funext a b
    rw [rrfFold_score_spec kc results_lists hnd a,
      rrfFold_score_spec kc results_lists hnd b]
  have heq : (reciprocal_rank_fusion results_lists kc).map rrfKey =
      List.insertionSort
        (fun a b => specScore results_lists kc b ≤ specScore results_lists kc a)
        (fsDedup (results_lists.flatten.map rrfKey)) := by
    rw [rrf_map_key]
    rw [rrfFold_keys_fsDedup]
    simp only [hrel]
  have hBnodup : (fsDedup (results_lists.flatten.map rrfKey)).Nodup :=
    nodup_fsDedup _
  refine ⟨?_, ?_, heq, ?_⟩
  · rw [heq]
    exact (List.perm_insertionSort _ _).nodup_iff.mpr hBnodup
  · intro key
    rw [heq]
    rw [List.mem_insertionSort, mem_fsDedup]
  · rw [heq]
    exact pairwise_insertionSort_stable (specScore results_lists kc) _ _
      (nodup_pairwise_indexOf _ hBnodup)

/-- Claim C2 amended: fusion deduplicates by the content prefix ALONE
(metadata plays no part in the key); the first-seen instance of each key is
retained as the representative object in the output, and later duplicates
never produce a second output entry. -/
theorem reciprocal_rank_fusion_firstseen (results_lists : List (List Document))
    (kc : ℕ) :
    ((reciprocal_rank_fusion results_lists kc).map rrfKey).Nodup ∧
      ∀ d ∈ reciprocal_rank_fusion results_lists kc,
        results_lists.flatten.find? (fun e => rrfKey e == rrfKey d) = some d := by
  constructor
  · rw [rrf_map_key]
    refine (List.perm_insertionSort _ _).nodup_iff.mpr ?_
    rw [rrfFold_keys_fsDedup]
    exact nodup_fsDedup _
  · intro d hd
    rw [show reciprocal_rank_fusion results_lists kc =
        (List.insertionSort
          (fun a b => rrfScore (rrfFold kc results_lists) b ≤
            rrfScore (rrfFold kc results_lists) a)
          ((rrfFold kc results_lists).doc_scores.map Prod.fst)).filterMap
          (alistGet (rrfFold kc results_lists).doc_map) from rfl] at hd
    rw [List.mem_filterMap] at hd
    obtain ⟨k, hk, hget⟩ := hd
    rw [rrfFold_get_flatten] at hget
    have hpd : (rrfKey d == k) = true := by simpa using List.find?_some hget
    have hkey : rrfKey d = k := beq_iff_eq.mp hpd
    rw [← hkey] at hget
    exact hget

/-- Claim C2 as stated is false: two chunks with identical content but
DIFFERENT source metadata are still merged into one output entry, because
the deduplication key is the content prefix alone — metadata is not part of
the identity. Under the claimed (prefix + metadata) identity these two
chunks would be distinct and yield two entries. -/
theorem reciprocal_rank_fusion_metadata_counterexample :
    reciprocal_rank_fusion [[dSameA, dSameB]] 60 = [dSameA] ∧
      (reciprocal_rank_fusion [[dSameA, dSameB]] 60).length = 1 ∧
      dSameA.metadata ≠ dSameB.metadata ∧
      dSameA.page_content = dSameB.page_content := by
  refine ⟨by decide, by decide, by decide, by decide⟩

/-- Witness for C1 at a concrete pair of ranked lists with duplicate-free
keys. -/
theorem reciprocal_rank_fusion_spec_witness :
    (reciprocal_rank_fusion [[dSameA], [cDoc, dSameA]] 60).map rrfKey =
      List.insertionSort
        (fun a b => specScore [[dSameA], [cDoc, dSameA]] 60 b ≤
          specScore [[dSameA], [cDoc, dSameA]] 60 a)
        (fsDedup ([[dSameA], [cDoc, dSameA]].flatten.map rrfKey)) :=
  (reciprocal_rank_fusion_spec [[dSameA], [cDoc, dSameA]] 60 (by decide)).2.2.1

/-- Witness for the amended C2 theorem: the retained representative of the
duplicated key is the first-seen instance. -/
theorem reciprocal_rank_fusion_firstseen_witness :
    [[dSameA, dSameB]].flatten.find? (fun e => rrfKey e == rrfKey dSameA) =
      some dSameA :=
  (reciprocal_rank_fusion_firstseen [[dSameA, dSameB]] 60).2 dSameA (by decide)


end IRRA
